import Mathlib

/-!
# Verification of `poker.py` (The Psychic Poker Player)

A shallow embedding of `src/python/poker.py` (Python 2) into Lean 4, with
theorems checking the natural-language specification against the code.

Modelling conventions:
* A Python `Card` object wraps the integer `self.card`; we embed it as a
  structure holding that `Nat`.
* `figure_only` / `suit_only` return `(card >> 4) - 1` resp. `(card & 0xf) - 1`
  in Python, where the subtraction can go below zero for malformed-but-accepted
  tokens (e.g. the token `"CS"` parses to `card = 5`, whose `figure_only()` is
  `-1` in Python); we therefore use `Int` for these two projections.
* Python's `sorted(figures, reverse=True)` is embedded as
  `List.insertionSort (· ≥ ·)`: on integers the descending-sorted list of a
  multiset is unique, so any correct sort agrees with Python's.
* Python's `len(set(xs))` on *values* (ints) is `(xs.dedup).length`.
  On `Card` *objects* it is the number of objects: `Card` defines neither
  `__eq__` nor `__hash__`, so Python 2 hashes by object identity, and
  `map(Card, tokens)` builds a fresh object per token — hence
  `len(set(cards)) == len(cards)` always.  See `validate`.
-/

namespace Poker

/-- The figure characters, in the source's order `'A23456789TJQK'`
(index 0 = A, index 12 = K). -/
def FIG : List Char := ['A', '2', '3', '4', '5', '6', '7', '8', '9', 'T', 'J', 'Q', 'K']

/-- The suit characters, in the source's order `'CDHS'`. -/
def SUIT : List Char := ['C', 'D', 'H', 'S']

/-- The combined character table `Card._CARD`: a figure at (0-based) index `i`
maps to `(i+1) << 4`, a suit at index `i` maps to `i+1`; any other character
is absent (Python raises `KeyError`, modelled as `none`). -/
def CARDval (ch : Char) : Option Nat :=
  match FIG.indexOf? ch with
  | some i => some ((i + 1) * 16)
  | none =>
    match SUIT.indexOf? ch with
    | some i => some (i + 1)
    | none => none

/-- A card: the hexadecimal number `Card.card` built by `Card.__init__`. -/
structure Card where
  card : Nat
deriving DecidableEq, Repr

/-- `Card.__init__` on a token (list of characters): looks up `card[0]` and
`card[1]` in `_CARD` and adds; fails (`KeyError`/`IndexError`) if the token is
shorter than 2 characters or either character is absent.  Characters beyond
the second are ignored, as in Python. -/
def mkCard (tok : List Char) : Option Card :=
  match tok with
  | c0 :: c1 :: _ =>
    match CARDval c0, CARDval c1 with
    | some a, some b => some ⟨a + b⟩
    | _, _ => none
  | _ => none

/-- `Card.suit_only`: `(self.card & 0x0f) - 1`, over `Int` since Python
subtraction is unbounded below. -/
def suit_only (c : Card) : Int :=
  ((c.card % 16 : Nat) : Int) - 1

/-- `Card.figure_only`: `(self.card >> 4) - 1`, over `Int`. -/
def figure_only (c : Card) : Int :=
  ((c.card / 16 : Nat) : Int) - 1

/-- Python list indexing `l[i]`: nonnegative indices directly, negative
indices wrap once from the end; out of range raises (here `none`). -/
def pyIndex (l : List Char) (i : Int) : Option Char :=
  if 0 ≤ i then l.get? i.toNat
  else if (-i).toNat ≤ l.length then l.get? (l.length - (-i).toNat)
  else none

/-- `Card.__str__`: `_FIG[self.figure_only()] + _SUIT[self.suit_only()]`,
as the 2-character list; `none` when an index is out of range. -/
def cardStr (c : Card) : Option (List Char) :=
  match pyIndex FIG (figure_only c), pyIndex SUIT (suit_only c) with
  | some f, some s => some [f, s]
  | _, _ => none

/-- The rank names `Hand._RANK`, weakest first. -/
def RANK : List String :=
  ["highest-card", "one-pair", "two-pairs", "three-of-a-kind", "straight",
   "flush", "full-house", "four-of-a-kind", "straight-flush"]

/-- The list `stops` built inside `Hand.is_straight`: the indices
`i ∈ xrange(1, 5)` (in order) where the descending-sorted figures break,
i.e. `figures[i-1] != figures[i] + 1`. -/
def stops (figures : List Int) : List Nat :=
  (List.range' 1 4).filter (fun i => figures.getD (i - 1) 0 ≠ figures.getD i 0 + 1)

/-- The second disjunct of `Hand.is_straight`'s return:
`stops == [4] and figures[0] == 12 and figures[4] == 0`. -/
def specialStraight (figures : List Int) : Bool :=
  stops figures = [4] ∧ figures.getD 0 0 = 12 ∧ figures.getD 4 0 = 0

/-- `Hand.is_straight` on the descending-sorted figure list:
`stops == [] or (stops == [4] and figures[0] == 12 and figures[4] == 0)`. -/
def is_straight (figures : List Int) : Bool :=
  stops figures = [] ∨ specialStraight figures

/-- The descending-sorted figure list
`sorted(map(Card.figure_only, self.cards), reverse=True)`. -/
def sortedFigures (cards : List Card) : List Int :=
  (cards.map figure_only).insertionSort (· ≥ ·)

/-- `Hand.evaluate`.  `suits` is `len(set(map(Card.suit_only, cards)))` and
`figures` the descending-sorted figure list; then the cascade of checks in
source order.  Python indexing `figures[i]` is embedded as `getD i 0`
(for the 5-card hands the program builds, all indices are in range). -/
def evaluate (cards : List Card) : String :=
  let suits := ((cards.map suit_only).dedup).length
  let figures := sortedFigures cards
  if suits = 1 then
    if is_straight figures then "straight-flush" else "flush"
  else if figures.getD 0 0 = figures.getD 3 0 ∨ figures.getD 1 0 = figures.getD 4 0 then
    "four-of-a-kind"
  else if figures.getD 0 0 = figures.getD 2 0 ∧ figures.getD 3 0 = figures.getD 4 0 then
    "full-house"
  else if figures.getD 0 0 = figures.getD 1 0 ∧ figures.getD 2 0 = figures.getD 4 0 then
    "full-house"
  else if is_straight figures then
    "straight"
  else if figures.getD 0 0 = figures.getD 2 0 ∨ figures.getD 1 0 = figures.getD 3 0 ∨
      figures.getD 2 0 = figures.getD 4 0 then
    "three-of-a-kind"
  else
    let distinct := (figures.dedup).length
    if distinct = 3 then "two-pairs"
    else if distinct = 4 then "one-pair"
    else "highest-card"

/-- `Hand.__int__`: the index of the evaluated rank name in `_RANK`. -/
def rankIdx (cards : List Card) : Nat :=
  RANK.indexOf (evaluate cards)

/-- `Hand.__gt__`: `int(self) > int(other)`. -/
def handGt (a b : List Card) : Bool :=
  rankIdx b < rankIdx a

/-- All strictly increasing `n`-element selections from `avail`, first
element chosen first — i.e. size-`n` combinations in lexicographic order,
which is exactly the sequence the backtracking generator `discard` yields
(it extends the current prefix with each index from `w = last+1` upward and
emits the prefix as soon as it reaches length `n`). -/
def combinations : Nat → List Nat → List (List Nat)
  | 0, _ => [[]]
  | _ + 1, [] => []
  | n + 1, x :: xs => ((combinations n xs).map (fun t => x :: t)) ++ combinations (n + 1) xs

/-- `discard(n)`: all size-`n` subsets of hand positions `{0,…,4}`, as
increasing lists in lexicographic order; empty for `n = 0` (the generator
body is guarded by `if n > 0`). -/
def discard (n : Nat) : List (List Nat) :=
  if n = 0 then [] else combinations n [0, 1, 2, 3, 4]

/-- A placeholder card used only as the (unreached) default of `getD`. -/
def dfltCard : Card := ⟨0⟩

/-- The inner replacement loop of `best_combinations`:
`for n, r in enumerate(variation): hand.replace(r, cards[5+n])`, starting
from a fresh copy of the first five cards.  `deck` is `cards[5:]`. -/
def substitute (five deck : List Card) (variation : List Nat) : List Card :=
  variation.enum.foldl (fun h p => h.set p.2 (deck.getD p.1 dfltCard)) five

/-- `best_combinations(cards)`: start from the original five cards, iterate
`d ∈ xrange(1, 6)` and each `variation ∈ discard(d)`, build the substituted
hand and keep it only when strictly greater (`hand > best`).  Returns the
card list of the retained best hand. -/
def best_combinations (cards : List Card) : List Card :=
  let five := cards.take 5
  ((List.range' 1 5).flatMap discard).foldl
    (fun best v =>
      let hand := substitute five (cards.drop 5) v
      if handGt hand best then hand else best)
    five

/-- `validate(cards)`: Python computes `len(set(cards)) == 10 and cards`.
`Card` objects define neither `__eq__` nor `__hash__`, so the set dedups by
object identity; `convert` builds a fresh object per token, so
`len(set(cards))` is always `len(cards)` and the check degenerates to a pure
length test — equal-valued duplicate cards are *not* detected. -/
def validate (cards : List Card) : Bool :=
  cards.length = 10

/-- Python 2 `str.upper` restricted to ASCII letters (the only characters
relevant to card tokens): lowercase `a`–`z` map up by 32, everything else is
unchanged. -/
def upperChar (c : Char) : Char :=
  if 97 ≤ c.toNat ∧ c.toNat ≤ 122 then Char.ofNat (c.toNat - 32) else c

/-- `str.upper` over the characters of a line. -/
def upperStr (s : String) : String :=
  ⟨s.data.map upperChar⟩

/-- Worker for `splitWs`: `acc` is the current token (reversed). -/
def splitWsAux : List Char → List Char → List (List Char)
  | [], [] => []
  | [], acc => [acc.reverse]
  | c :: cs, acc =>
    if c.isWhitespace then
      match acc with
      | [] => splitWsAux cs []
      | _ => acc.reverse :: splitWsAux cs []
    else splitWsAux cs (c :: acc)

/-- Python `str.split()` with no argument: split on runs of whitespace,
discarding empty tokens. -/
def splitWs (cs : List Char) : List (List Char) :=
  splitWsAux cs []

/-- `convert(line)`: `map(Card, line.upper().split())`, with the whole result
collapsing to `[]` if any token fails to parse (the bare `except`). -/
def convert (line : String) : List Card :=
  match (splitWs (line.data.map upperChar)).mapM mkCard with
  | some cs => cs
  | none => []

/-- `process(line)` composed with the printing in `read_input`:
`print process(line.strip()) or 'Invalid line'`.  `process` returns
`validate(convert(line)) and best_combinations(cards)`; a falsy result
prints `Invalid line`, a `Hand` prints `Hand.__str__`, which returns the
*rank name* (`self.rank`, computing it if unset). -/
def processOut (line : String) : String :=
  let cards := convert line
  if validate cards then evaluate (best_combinations cards) else "Invalid line"

/-- Following the words of the spec (refinement side, to be compared with
`evaluate`): the nine-way classification described as a cascade on the
descending-sorted rank multiset `[r0, r1, r2, r3, r4]` — one-suit
flush/straight-flush first, then four-of-a-kind (`r0 = r3` or `r1 = r4`),
then full-house (one check with two patterns), then straight, then
three-of-a-kind, then by the count of distinct ranks. -/
def evaluateSpec (cards : List Card) : String :=
  match sortedFigures cards with
  | [r0, r1, r2, r3, r4] =>
    if ((cards.map suit_only).dedup).length = 1 then
      if is_straight [r0, r1, r2, r3, r4] then "straight-flush" else "flush"
    else if r0 = r3 ∨ r1 = r4 then "four-of-a-kind"
    else if (r0 = r2 ∧ r3 = r4) ∨ (r0 = r1 ∧ r2 = r4) then "full-house"
    else if is_straight [r0, r1, r2, r3, r4] then "straight"
    else if r0 = r2 ∨ r1 = r3 ∨ r2 = r4 then "three-of-a-kind"
    else if ([r0, r1, r2, r3, r4].dedup).length = 3 then "two-pairs"
    else if ([r0, r1, r2, r3, r4].dedup).length = 4 then "one-pair"
    else "highest-card"
  | _ => "highest-card"

/-- Following the words of the spec (refinement side, to be compared with
`substitute`): the candidate hand for a chosen subset `s` of hand positions —
the k-th smallest chosen position receives the k-th deck card (for an
increasing `s`, `s.indexOf i` is exactly the number of chosen positions
below `i`), every other position keeps the original hand card. -/
def substituteSpec (five deck : List Card) (s : List Nat) : List Card :=
  (List.range 5).map (fun i =>
    if i ∈ s then deck.getD (s.indexOf i) dfltCard else five.getD i dfltCard)

/-! ## Helper lemmas -/

set_option maxRecDepth 10000

theorem exists_five_of_length {α : Type} {l : List α} (h : l.length = 5) :
    ∃ a b c d e, l = [a, b, c, d, e] := by
  rcases l with _ | ⟨a, l⟩; · simp at h
  rcases l with _ | ⟨b, l⟩; · simp at h
  rcases l with _ | ⟨c, l⟩; · simp at h
  rcases l with _ | ⟨d, l⟩; · simp at h
  rcases l with _ | ⟨e, l⟩; · simp at h
  rcases l with _ | ⟨f, l⟩
  · exact ⟨a, b, c, d, e, rfl⟩
  · simp at h

theorem char_toNat_ofNat {n : Nat} (h : n.isValidChar) : (Char.ofNat n).toNat = n := by
  rw [Char.ofNat, dif_pos h]
  rfl

theorem upperChar_idem (c : Char) : upperChar (upperChar c) = upperChar c := by
  by_cases h : 97 ≤ c.toNat ∧ c.toNat ≤ 122
  · have h1 : upperChar c = Char.ofNat (c.toNat - 32) := by rw [upperChar, if_pos h]
    have h2 : (Char.ofNat (c.toNat - 32)).toNat = c.toNat - 32 :=
      char_toNat_ofNat (Or.inl (by omega))
    rw [h1, upperChar, if_neg]
    rw [h2]
    omega
  · have hc : upperChar c = c := by rw [upperChar, if_neg h]
    rw [hc]
    exact hc

/-! ## Claims -/

/-- C1: the spec says a record with a repeated card value among its 10 tokens
is rejected as `Invalid line`.  The code does not: `Card` defines neither
`__eq__` nor `__hash__`, so `validate`'s `len(set(cards)) == 10` dedups by
object identity and never fires on equal card values.  At the spec's own
example input `TH JH QC QD QS QH KH AH 2S TH` (TH repeated) the program
evaluates the record and prints `straight-flush` instead of `Invalid line`. -/
theorem duplicate_record_not_rejected :
    processOut "TH JH QC QD QS QH KH AH 2S TH" = "straight-flush" := by decide

/-- C2: the spec says each valid record produces the line
`Hand: <c1> … Deck: <d1> … Best hand: <rank-name>`.  The code's `read_input`
prints `process(line)`, and `Hand.__str__` returns only the rank name
(`self.rank`), so the emitted line for the first documented sample input is
the bare rank name `straight-flush` — contradicting the module docstring's
own sample output `Hand: TH JH QC QD QS Deck: QH KH AH 2S 6S Best hand:
straight-flush`. -/
theorem valid_record_output_is_rank_name :
    processOut "TH JH QC QD QS QH KH AH 2S 6S" = "straight-flush" := by decide

/-- C3 counterexample: the claim says the special disjunct of
`Hand.is_straight` holds exactly for the low-ace straight A-2-3-4-5.  In
fact the wheel's figures sort (descending) to `[4, 3, 2, 1, 0]`, on which
the special disjunct is *false* (the run is already consecutive), while the
ace-high straight T-J-Q-K-A sorts to `[12, 11, 10, 9, 0]`, on which it is
*true*. -/
theorem specialStraight_wheel_counterexample :
    specialStraight (sortedFigures (convert "AH 2H 3H 4H 5C")) = false ∧
    specialStraight (sortedFigures (convert "TH JH QH KH AD")) = true := by decide

/-- C3 (amended): the special (non-consecutive) disjunct of the straight
rule holds exactly for the descending-sorted figure list `[12, 11, 10, 9, 0]`
— the figures of the *ace-high* straight T-J-Q-K-A (under the source's
mapping A = 0, …, K = 12) — and for no other figure quintuple; the wheel
A-2-3-4-5 sorts to `[4, 3, 2, 1, 0]`, which has no adjacency break at all
(`stops = []`) and is recognized as a straight by the first disjunct. -/
theorem specialStraight_characterization (f0 f1 f2 f3 f4 : Int) :
    (specialStraight [f0, f1, f2, f3, f4] = true ↔
      (f0 = 12 ∧ f1 = 11 ∧ f2 = 10 ∧ f3 = 9 ∧ f4 = 0)) ∧
    sortedFigures (convert "TH JH QH KH AD") = [12, 11, 10, 9, 0] ∧
    sortedFigures (convert "AH 2H 3H 4H 5C") = [4, 3, 2, 1, 0] ∧
    stops [4, 3, 2, 1, 0] = [] ∧
    is_straight [4, 3, 2, 1, 0] = true := by
  refine ⟨?_, by decide, by decide, by decide, by decide⟩
  constructor
  · intro h
    have hp : stops [f0, f1, f2, f3, f4] = [4] ∧ f0 = 12 ∧ f4 = 0 := of_decide_eq_true h
    obtain ⟨hs, h0, h4⟩ := hp
    have e1 : f0 = f1 + 1 := by
      by_contra c
      simp [stops, List.range', List.filter_cons, List.getD, c] at hs
    have e2 : f1 = f2 + 1 := by
      by_contra c
      simp [stops, List.range', List.filter_cons, List.getD, e1, c] at hs
    have e3 : f2 = f3 + 1 := by
      by_contra c
      simp [stops, List.range', List.filter_cons, List.getD, e1, e2, c] at hs
    exact ⟨h0, by omega, by omega, by omega, h4⟩
  · rintro ⟨rfl, rfl, rfl, rfl, rfl⟩
    decide

/-- C9: validation requires exactly 10 cards; a line whose tokens all parse
but yield more than 10 cards fails `validate` (`len(set(cards)) == 10`) and
prints `Invalid line`. -/
theorem more_than_ten_cards_invalid (line : String) (h : 10 < (convert line).length) :
    processOut line = "Invalid line" := by
  have hv : validate (convert line) = false := by
    simp only [validate, decide_eq_false_iff_not]
    omega
  simp [processOut, hv]

/-- Witness for C9 at a concrete 11-token line. -/
theorem more_than_ten_cards_invalid_witness :
    10 < (convert "TH JH QC QD QS QH KH AH 2S 6S 3C").length ∧
    processOut "TH JH QC QD QS QH KH AH 2S 6S 3C" = "Invalid line" :=
  ⟨by decide, more_than_ten_cards_invalid "TH JH QC QD QS QH KH AH 2S 6S 3C" (by decide)⟩

/-- C10: for every 2-character token with a recognized figure and suit
character, parsing succeeds, `Card.__str__` reproduces the token exactly,
and `figure_only` / `suit_only` are the indices of the characters in
`'A23456789TJQK'` / `'CDHS'` (hence A = 0, K = 12, C = 0, S = 3, with
`figure_only ∈ [0, 12]` and `suit_only ∈ [0, 3]`). -/
theorem card_roundtrip (f s : Char) (hf : f ∈ FIG) (hs : s ∈ SUIT) :
    (mkCard [f, s]).isSome = true ∧
    cardStr ((mkCard [f, s]).getD dfltCard) = some [f, s] ∧
    figure_only ((mkCard [f, s]).getD dfltCard) = (FIG.indexOf f : Int) ∧
    suit_only ((mkCard [f, s]).getD dfltCard) = (SUIT.indexOf s : Int) ∧
    0 ≤ figure_only ((mkCard [f, s]).getD dfltCard) ∧
    figure_only ((mkCard [f, s]).getD dfltCard) ≤ 12 ∧
    0 ≤ suit_only ((mkCard [f, s]).getD dfltCard) ∧
    suit_only ((mkCard [f, s]).getD dfltCard) ≤ 3 := by
  fin_cases hf <;> fin_cases hs <;> decide

/-- Helper: replacing the running best by a candidate only when strictly
greater never lowers the rank. -/
theorem rankIdx_step_ge (best h : List Card) :
    rankIdx best ≤ rankIdx (if handGt h best then h else best) := by
  by_cases hc : handGt h best = true
  · rw [if_pos hc]
    have hlt : rankIdx best < rankIdx h := of_decide_eq_true hc
    omega
  · rw [if_neg hc]

/-- Helper: the rank of the fold's result is at least the rank of the
initial hand. -/
theorem rankIdx_le_foldl {α : Type} (f : α → List Card) (l : List α) (best : List Card) :
    rankIdx best ≤
      rankIdx (l.foldl (fun b v => if handGt (f v) b then f v else b) best) := by
  induction l generalizing best with
  | nil => exact le_refl _
  | cons a t ih =>
    simp only [List.foldl_cons]
    exact le_trans (rankIdx_step_ge best (f a)) (ih _)

/-- Helper: the rank of the strictly-greater-replacement fold equals the
fold of `max` over the candidate ranks. -/
theorem rankIdx_foldl_max {α : Type} (f : α → List Card) (l : List α) (best : List Card) :
    rankIdx (l.foldl (fun b v => if handGt (f v) b then f v else b) best) =
      (l.map (fun v => rankIdx (f v))).foldl max (rankIdx best) := by
  induction l generalizing best with
  | nil => rfl
  | cons a t ih =>
    simp only [List.foldl_cons, List.map_cons]
    rw [ih]
    congr 1
    by_cases hc : rankIdx best < rankIdx (f a)
    · have hb : handGt (f a) best = true := decide_eq_true hc
      rw [if_pos hb]
      exact (Nat.max_eq_right (Nat.le_of_lt hc)).symm
    · have hb : handGt (f a) best = false := decide_eq_false hc
      rw [if_neg (by simp [hb])]
      exact (Nat.max_eq_left (Nat.not_lt.mp hc)).symm

/-- Helper: on a 5-card hand, the code's front-to-back replacement loop
builds exactly the candidate described by the spec (k-th smallest chosen
position receives the k-th deck card), for every subset of `{0,…,4}`. -/
theorem substitute_eq_spec (five deck : List Card) (hfive : five.length = 5)
    (s : List Nat) (hs : s ∈ (([0, 1, 2, 3, 4] : List Nat).sublists)) :
    substitute five deck s = substituteSpec five deck s := by
  obtain ⟨a, b, c, d, e, rfl⟩ := exists_five_of_length hfive
  fin_cases hs <;> rfl

/-- C4: for every hand of exactly 5 cards, the evaluator returns one of the
nine rank names, and it equals the spec's cascade on the descending-sorted
rank multiset — one-suit flush/straight-flush first, then four-of-a-kind
(`r0 = r3` or `r1 = r4`), then full-house (`r0 = r2 ∧ r3 = r4` or
`r0 = r1 ∧ r2 = r4`), then straight, then three-of-a-kind, then by the
count of distinct ranks (3 → two-pairs, 4 → one-pair, else highest-card). -/
theorem evaluate_nine_ranks_and_matches_spec (cards : List Card) (h : cards.length = 5) :
    evaluate cards = evaluateSpec cards ∧ evaluate cards ∈ RANK := by
  constructor
  · have hlen : (sortedFigures cards).length = 5 := by
      simp [sortedFigures, List.length_insertionSort, h]
    obtain ⟨r0, r1, r2, r3, r4, hf⟩ := exists_five_of_length hlen
    simp only [evaluate, evaluateSpec, hf, List.getD_cons_zero, List.getD_cons_succ]
    by_cases h1 : (List.map suit_only cards).dedup.length = 1 <;>
      by_cases hA : r0 = r2 ∧ r3 = r4 <;> by_cases hB : r0 = r1 ∧ r2 = r4 <;>
      simp [h1, hA, hB]
  · simp only [evaluate]
    repeat' split
    all_goals decide

/-- Witness for C4 at the concrete hand `AC 2D 9C 3S KD`. -/
theorem evaluate_nine_ranks_and_matches_spec_witness :
    (convert "AC 2D 9C 3S KD").length = 5 ∧
    (evaluate (convert "AC 2D 9C 3S KD") = evaluateSpec (convert "AC 2D 9C 3S KD") ∧
      evaluate (convert "AC 2D 9C 3S KD") ∈ RANK) :=
  ⟨by decide, evaluate_nine_ranks_and_matches_spec (convert "AC 2D 9C 3S KD") (by decide)⟩

/-- C5: for a 10-card record, the rank of the hand returned by
`best_combinations` equals the maximum rank over exactly the 32 candidate
hands — one for each subset of hand positions `{0,…,4}` (each subset
exactly once, `sublists` being duplicate-free), where the k-th smallest
chosen position receives the k-th deck card and the other positions keep
the original hand card (`substituteSpec`, the spec-side definition). -/
theorem best_combinations_is_max_over_32 (cards : List Card) (h : cards.length = 10) :
    ((([0, 1, 2, 3, 4] : List Nat).sublists).map
        (substituteSpec (cards.take 5) (cards.drop 5))).length = 32 ∧
    (([0, 1, 2, 3, 4] : List Nat).sublists).Nodup ∧
    (∀ s ∈ (([0, 1, 2, 3, 4] : List Nat).sublists),
      List.Pairwise (· < ·) s ∧ ∀ i ∈ s, i < 5) ∧
    rankIdx (best_combinations cards) =
      (((([0, 1, 2, 3, 4] : List Nat).sublists).map
          (substituteSpec (cards.take 5) (cards.drop 5))).map rankIdx).foldl max 0 := by
  refine ⟨by simp, by decide, by decide, ?_⟩
  have hfive : (cards.take 5).length = 5 := by simp [h]
  have h1 : rankIdx (best_combinations cards) =
      (((List.range' 1 5).flatMap discard).map
        (fun v => rankIdx (substitute (cards.take 5) (cards.drop 5) v))).foldl max
        (rankIdx (cards.take 5)) :=
    rankIdx_foldl_max (fun v => substitute (cards.take 5) (cards.drop 5) v)
      ((List.range' 1 5).flatMap discard) (cards.take 5)
  have h2 : rankIdx (best_combinations cards) =
      ((([] : List Nat) :: (List.range' 1 5).flatMap discard).map
        (fun v => rankIdx (substitute (cards.take 5) (cards.drop 5) v))).foldl max 0 := by
    rw [h1]
    simp only [List.map_cons, List.foldl_cons, Nat.zero_max]
    rfl
  have hperm : ((([] : List Nat) :: (List.range' 1 5).flatMap discard).Perm
      (([0, 1, 2, 3, 4] : List Nat).sublists)) := by decide
  have h3 : rankIdx (best_combinations cards) =
      ((([0, 1, 2, 3, 4] : List Nat).sublists).map
        (fun v => rankIdx (substitute (cards.take 5) (cards.drop 5) v))).foldl max 0 := by
    rw [h2]
    exact (hperm.map _).foldl_eq 0
  rw [h3, List.map_map]
  refine congrArg (fun l => List.foldl max 0 l) ?_
  refine List.map_congr_left ?_
  intro s hs
  simp only [Function.comp]
  rw [substitute_eq_spec (cards.take 5) (cards.drop 5) hfive s hs]

/-- Witness for C5 at the first documented sample record. -/
theorem best_combinations_is_max_over_32_witness :
    (convert "TH JH QC QD QS QH KH AH 2S 6S").length = 10 ∧
    (((([0, 1, 2, 3, 4] : List Nat).sublists).map
        (substituteSpec ((convert "TH JH QC QD QS QH KH AH 2S 6S").take 5)
          ((convert "TH JH QC QD QS QH KH AH 2S 6S").drop 5))).length = 32 ∧
    (([0, 1, 2, 3, 4] : List Nat).sublists).Nodup ∧
    (∀ s ∈ (([0, 1, 2, 3, 4] : List Nat).sublists),
      List.Pairwise (· < ·) s ∧ ∀ i ∈ s, i < 5) ∧
    rankIdx (best_combinations (convert "TH JH QC QD QS QH KH AH 2S 6S")) =
      (((([0, 1, 2, 3, 4] : List Nat).sublists).map
          (substituteSpec ((convert "TH JH QC QD QS QH KH AH 2S 6S").take 5)
            ((convert "TH JH QC QD QS QH KH AH 2S 6S").drop 5))).map rankIdx).foldl max 0) :=
  ⟨by decide, best_combinations_is_max_over_32 (convert "TH JH QC QD QS QH KH AH 2S 6S") (by decide)⟩

/-- C6: the rank of the hand returned by the discard search is never lower
than the rank of the original (no-discard) hand `cards[:5]`: the fold starts
from the original hand and replaces it only by strictly greater hands. -/
theorem best_combinations_never_worse (cards : List Card) :
    rankIdx (cards.take 5) ≤ rankIdx (best_combinations cards) :=
  rankIdx_le_foldl (fun v => substitute (cards.take 5) (cards.drop 5) v)
    ((List.range' 1 5).flatMap discard) (cards.take 5)

/-- C7: `_RANK` is exactly the nine category names in the claimed order;
for names in `_RANK` the comparison by `_RANK.index` is total (trichotomy);
`Hand.__gt__` is strict comparison of those indices; and the search's update
keeps the current best unless the candidate's index is strictly greater. -/
theorem rank_order_and_replacement (a b : String) (ha : a ∈ RANK) (hb : b ∈ RANK)
    (best cand : List Card) :
    RANK = ["highest-card", "one-pair", "two-pairs", "three-of-a-kind", "straight",
      "flush", "full-house", "four-of-a-kind", "straight-flush"] ∧
    (RANK.indexOf a < RANK.indexOf b ∨ RANK.indexOf b < RANK.indexOf a ∨ a = b) ∧
    (handGt cand best = true ↔ rankIdx best < rankIdx cand) ∧
    (rankIdx best < rankIdx cand → (if handGt cand best then cand else best) = cand) ∧
    (¬ rankIdx best < rankIdx cand → (if handGt cand best then cand else best) = best) := by
  refine ⟨rfl, ?_, by simp [handGt], ?_, ?_⟩
  · fin_cases ha <;> fin_cases hb <;> decide
  · intro hlt
    have hbt : handGt cand best = true := decide_eq_true hlt
    rw [if_pos hbt]
  · intro hge
    have hbt : handGt cand best = false := decide_eq_false hge
    rw [if_neg (by simp [hbt])]

/-- Witness for C7 at `one-pair` / `two-pairs` and two empty card lists. -/
theorem rank_order_and_replacement_witness :
    RANK = ["highest-card", "one-pair", "two-pairs", "three-of-a-kind", "straight",
      "flush", "full-house", "four-of-a-kind", "straight-flush"] ∧
    (RANK.indexOf "one-pair" < RANK.indexOf "two-pairs" ∨
      RANK.indexOf "two-pairs" < RANK.indexOf "one-pair" ∨
      ("one-pair" : String) = "two-pairs") ∧
    (handGt ([] : List Card) ([] : List Card) = true ↔
      rankIdx ([] : List Card) < rankIdx ([] : List Card)) ∧
    (rankIdx ([] : List Card) < rankIdx ([] : List Card) →
      (if handGt ([] : List Card) ([] : List Card) then ([] : List Card) else []) = []) ∧
    (¬ rankIdx ([] : List Card) < rankIdx ([] : List Card) →
      (if handGt ([] : List Card) ([] : List Card) then ([] : List Card) else []) = []) :=
  rank_order_and_replacement "one-pair" "two-pairs" (by decide) (by decide) [] []

/-- C8: parsing is case-insensitive — `convert` upper-cases the line before
tokenization, so processing any line gives the same output as processing its
upper-cased form, and a lowercase record such as
`th jh qc qd qs qh kh ah 2s 6s` is accepted and evaluated. -/
theorem process_case_insensitive :
    (∀ line : String, processOut line = processOut (upperStr line)) ∧
    convert "th jh qc qd qs qh kh ah 2s 6s" = convert "TH JH QC QD QS QH KH AH 2S 6S" ∧
    processOut "th jh qc qd qs qh kh ah 2s 6s" = "straight-flush" := by
  refine ⟨?_, by decide, by decide⟩
  intro line
  have hdata : (upperStr line).data.map upperChar = line.data.map upperChar := by
    show (line.data.map upperChar).map upperChar = line.data.map upperChar
    rw [List.map_map]
    exact List.map_congr_left (fun c _ => upperChar_idem c)
  unfold processOut convert
  rw [hdata]

/-- Witness for C10 at the token `AC`. -/
theorem card_roundtrip_witness :
    (mkCard ['A', 'C']).isSome = true ∧
    cardStr ((mkCard ['A', 'C']).getD dfltCard) = some ['A', 'C'] ∧
    figure_only ((mkCard ['A', 'C']).getD dfltCard) = (FIG.indexOf 'A' : Int) ∧
    suit_only ((mkCard ['A', 'C']).getD dfltCard) = (SUIT.indexOf 'C' : Int) ∧
    0 ≤ figure_only ((mkCard ['A', 'C']).getD dfltCard) ∧
    figure_only ((mkCard ['A', 'C']).getD dfltCard) ≤ 12 ∧
    0 ≤ suit_only ((mkCard ['A', 'C']).getD dfltCard) ∧
    suit_only ((mkCard ['A', 'C']).getD dfltCard) ≤ 3 :=
  card_roundtrip 'A' 'C' (by decide) (by decide)

end Poker

